import Mathlib

/-!
Verification development for the spectral-library-matching repository
(`scripts/spec_lib_matching_lcms.py` and `scripts/spec_lib_matching_gcms.py`).

Modelling conventions:
* CSV numbers (mass/charge positions, window sizes) are embedded as `ℚ`;
  float arithmetic on intensities and scores (powers, logs, square roots)
  is embedded as `ℝ`.
* The helper modules `processing.py` and `similarity_measures.py` are imported
  by the scripts but are not part of the repository snapshot; the functions
  they provide (`normalize`, `clean_spectrum`, `match_peaks_in_spectra`,
  `transform_int`, `S_cos`, `S_shannon`, `S_renyi`, `S_tsallis`) are modelled
  from the specification and are marked `Modelled from the spec:` below.
* The two driver scripts themselves (configuration defaulting, the
  query × reference double loop, top-N extraction, output-row construction)
  are embedded directly from the source.
-/

namespace SpecLibMatching

/-- A mass spectrum: an ordered list of (mass-to-charge, intensity) pairs,
as read row-group-wise from the query/reference CSV files. -/
abbrev Spectrum := List (ℚ × ℝ)

/-- Modelled from the spec: `normalize` from the missing `processing.py`
(spec section 4.1).  `standard` divides each element by the sum of all
elements, returning an all-zero vector unchanged (sum 0 is special-cased);
`softmax` exponentiates after subtracting the maximum element and divides by
the sum of exponentials. -/
noncomputable def normalize (v : List ℝ) (method : String) : List ℝ :=
  if method = "standard" then
    if v.sum = 0 then v else v.map (fun x => x / v.sum)
  else
    let m := v.foldr max 0
    let e := v.map (fun x => Real.exp (x - m))
    e.map (fun x => x / e.sum)

/-- Shannon entropy `-Σ p_i log p_i` of an intensity vector; the convention
`0 · log 0 := 0` holds because `Real.log 0 = 0`. -/
noncomputable def shannonEntropy (p : List ℝ) : ℝ :=
  -(p.map (fun x => x * Real.log x)).sum

/-- Modelled from the spec: `transform_int` (the low-entropy transform) from
the missing `processing.py` (spec section 4.5): normalize the vector, compute
its Shannon entropy `S`, and if `S < LET_threshold` raise every intensity of
the input vector to the power `(1+S)/(1+LET_threshold)`, else return the
input unchanged. -/
noncomputable def transform_int (v : List ℝ) (thr : ℝ) (method : String) : List ℝ :=
  let S := shannonEntropy (normalize v method)
  if S < thr then v.map (fun x => x ^ ((1 + S) / (1 + thr))) else v

/-- Dot product of two intensity vectors (`np.dot`). -/
noncomputable def dotList (a b : List ℝ) : ℝ :=
  (List.zipWith (fun x y => x * y) a b).sum

/-- Euclidean norm of an intensity vector. -/
noncomputable def normList (a : List ℝ) : ℝ :=
  Real.sqrt ((a.map (fun x => x ^ 2)).sum)

/-- Modelled from the spec: `S_cos` from the missing `similarity_measures.py`
(spec section 4.7): `dot(a,b) / (‖a‖ * ‖b‖)`, returning 0 when either norm
is 0. -/
noncomputable def S_cos (a b : List ℝ) : ℝ :=
  if normList a = 0 ∨ normList b = 0 then 0
  else dotList a b / (normList a * normList b)

/-- Pointwise average `(a+b)/2` of two probability vectors. -/
noncomputable def mixList (a b : List ℝ) : List ℝ :=
  List.zipWith (fun x y => (x + y) / 2) a b

/-- Modelled from the spec: `S_shannon` from the missing
`similarity_measures.py` (spec sections 4.7 and 9): a Jensen-Shannon-style
similarity `1 - (2·H((a+b)/2) - H(a) - H(b)) / log 4`; the spec leaves the
exact combination open, this is the standard bounded symmetric choice. -/
noncomputable def S_shannon (a b : List ℝ) : ℝ :=
  1 - (2 * shannonEntropy (mixList a b) - shannonEntropy a - shannonEntropy b) / Real.log 4

/-- Rényi entropy of order `q`: `(1/(1-q)) · log (Σ p_i^q)`. -/
noncomputable def renyiEntropy (p : List ℝ) (q : ℝ) : ℝ :=
  (1 / (1 - q)) * Real.log ((p.map (fun x => x ^ q)).sum)

/-- Modelled from the spec: `S_renyi` from the missing
`similarity_measures.py`: the same divergence construction as `S_shannon`
with the order-`q` Rényi entropy in place of Shannon entropy. -/
noncomputable def S_renyi (a b : List ℝ) (q : ℝ) : ℝ :=
  1 - (2 * renyiEntropy (mixList a b) q - renyiEntropy a q - renyiEntropy b q) / Real.log 4

/-- Tsallis entropy of order `q`: `(Σ p_i^q - 1) / (1 - q)`. -/
noncomputable def tsallisEntropy (p : List ℝ) (q : ℝ) : ℝ :=
  ((p.map (fun x => x ^ q)).sum - 1) / (1 - q)

/-- Modelled from the spec: `S_tsallis` from the missing
`similarity_measures.py`: the same divergence construction as `S_shannon`
with the order-`q` Tsallis entropy in place of Shannon entropy. -/
noncomputable def S_tsallis (a b : List ℝ) (q : ℝ) : ℝ :=
  1 - (2 * tsallisEntropy (mixList a b) q - tsallisEntropy a q - tsallisEntropy b q) / Real.log 4

/-- Sort a list of mass/charge values ascending and remove duplicates. -/
def dedupSort (l : List ℚ) : List ℚ :=
  (l.insertionSort (fun x y => x ≤ y)).dedup

/-- Greedy grouping of a list into maximal runs whose key stays within
`w` of the run's first element (the shared helper for window-based merging
of mass/charge positions). -/
def groupByWindowGo {α : Type} (w : ℚ) (key : α → ℚ) (b0 : ℚ) (acc : List α) :
    List α → List (List α)
  | [] => [acc]
  | x :: rest =>
    if key x - b0 ≤ w then groupByWindowGo w key b0 (acc ++ [x]) rest
    else acc :: groupByWindowGo w key (key x) [x] rest

/-- Entry point of the greedy window grouping. -/
def groupByWindow {α : Type} (w : ℚ) (key : α → ℚ) : List α → List (List α)
  | [] => []
  | x :: rest => groupByWindowGo w key (key x) [x] rest

/-- The shared bins used to align two spectra: the union of the two mz value
sets, sorted ascending, with positions within `window_size` of one another
collapsed into one bin. -/
def binsOf (a b : List ℚ) (w : ℚ) : List (List ℚ) :=
  groupByWindow w id (dedupSort (a ++ b))

/-- Total intensity a spectrum contributes to one bin: the sum of the
intensities of its peaks whose mz value belongs to the bin (0 when it has no
peak there). -/
noncomputable def intensityIn (s : Spectrum) (bin : List ℚ) : ℝ :=
  ((s.filter (fun p => p.1 ∈ bin)).map Prod.snd).sum

/-- Modelled from the spec: `match_peaks_in_spectra` from the missing
`processing.py` (spec section 4.3): aligns two spectra onto the shared bin
sequence, emitting one `(bin_mz, intensity_in_a, intensity_in_b)` triple per
bin (the array the LCMS script slices into columns 0,1 and 0,2). -/
noncomputable def match_peaks_in_spectra (sa sb : Spectrum) (w : ℚ) :
    List (ℚ × ℝ × ℝ) :=
  (binsOf (sa.map Prod.fst) (sb.map Prod.fst) w).map
    (fun bin => (bin.headD 0, intensityIn sa bin, intensityIn sb bin))

/-- Modelled from the spec: `clean_spectrum` from the missing `processing.py`
(spec section 4.2): drop peaks below `noise_removal · max(intensity)`, then
merge peaks whose mz values fall within `window_size` of each other, keeping
the mz of the highest-intensity peak of the cluster and summing the merged
intensities. -/
noncomputable def clean_spectrum (s : Spectrum) (noise : ℝ) (w : ℚ) : Spectrum :=
  let mx := (s.map Prod.snd).foldr max 0
  let s1 := (s.filter (fun p => ¬ p.2 < noise * mx)).insertionSort
    (fun p q => p.1 ≤ q.1)
  (groupByWindow w Prod.fst s1).map (fun grp =>
    ((grp.foldr (fun p best => if best.2 < p.2 then p else best) (0, 0)).1,
      (grp.map Prod.snd).sum))

/-- The command-line arguments consumed by `spec_lib_matching_lcms.py`
(already parsed to their numeric types; `none` models an absent argument). -/
structure LcmsArgs where
  spectrum_preprocessing_order : Option String
  similarity_measure : Option String
  window_size : Option ℚ
  noise_threshold : Option ℝ
  wf_mz : Option ℝ
  wf_intensity : Option ℝ
  LET_threshold : Option ℝ
  entropy_dimension : Option ℝ
  normalization_method : Option String
  n_top_matches_to_save : Option ℕ

/-- The configuration state the LCMS script has built once lines 44-119 have
run.  `q` is `some` only when the similarity measure is renyi or tsallis
(otherwise the script leaves the variable `q` unbound). -/
structure LcmsConfig where
  order : List Char
  window_size : ℚ
  noise_threshold : ℝ
  wf_mz : ℝ
  wf_intensity : ℝ
  LET_threshold : ℝ
  normalization_method : String
  similarity_measure : String
  q : Option ℝ

/-- Embedding of the configuration-loading section of
`spec_lib_matching_lcms.py` (lines 44-119): pure defaulting, with no
validation of any kind. -/
noncomputable def lcmsLoadConfig (a : LcmsArgs) : LcmsConfig :=
  { order := (a.spectrum_preprocessing_order.getD "CMWL").toList
    window_size := a.window_size.getD (1 / 2)
    noise_threshold := a.noise_threshold.getD 0
    wf_mz := a.wf_mz.getD 0
    wf_intensity := a.wf_intensity.getD 1
    LET_threshold := a.LET_threshold.getD 0
    normalization_method := a.normalization_method.getD "standard"
    similarity_measure := a.similarity_measure.getD "cosine"
    q := if a.similarity_measure = some "renyi" ∨ a.similarity_measure = some "tsallis"
         then some (a.entropy_dimension.getD (11 / 10)) else none }

/-- The weight-factor transformation applied inline by the LCMS script
(lines 158-160): `intensity := mz ^ wf_mz * intensity ^ wf_intensity`,
with the spectrum's own mz values as the base of the first power. -/
noncomputable def weightSpectrum (wfm wfi : ℝ) (s : Spectrum) : Spectrum :=
  s.map (fun p => (p.1, (p.1 : ℝ) ^ wfm * p.2 ^ wfi))

/-- The low-entropy-transformation stage of the LCMS script (lines 161-163):
the intensity column is replaced by `transform_int` of itself. -/
noncomputable def letStage (thr : ℝ) (method : String) (s : Spectrum) : Spectrum :=
  (s.map Prod.fst).zip (transform_int (s.map Prod.snd) thr method)

/-- One iteration of the LCMS script's `for transformation in
spectrum_preprocessing_order` loop (lines 150-163): the four independent
`if transformation == ...` branches, threading the (query, reference) pair. -/
noncomputable def applyTransformation (cfg : LcmsConfig) (qr : Spectrum × Spectrum)
    (t : Char) : Spectrum × Spectrum :=
  let qr1 := if t = 'C' then
      (clean_spectrum qr.1 cfg.noise_threshold cfg.window_size,
       clean_spectrum qr.2 cfg.noise_threshold cfg.window_size) else qr
  let qr2 := if t = 'M' then
      let m := match_peaks_in_spectra qr1.1 qr1.2 cfg.window_size
      (m.map (fun x => (x.1, x.2.1)), m.map (fun x => (x.1, x.2.2)))
    else qr1
  let qr3 := if t = 'W' then
      (weightSpectrum cfg.wf_mz cfg.wf_intensity qr2.1,
       weightSpectrum cfg.wf_mz cfg.wf_intensity qr2.2) else qr2
  if t = 'L' then
      (letStage cfg.LET_threshold cfg.normalization_method qr3.1,
       letStage cfg.LET_threshold cfg.normalization_method qr3.2) else qr3

/-- The similarity-score dispatch of the LCMS script (lines 165-179).
`none` models the `NameError` crash the script hits when the measure name is
unrecognized (`similarity_score` is never assigned) or when `q` is unbound. -/
noncomputable def pairScore (cfg : LcmsConfig) (qs rs : Spectrum) : Option ℝ :=
  let q_ints := qs.map Prod.snd
  let r_ints := rs.map Prod.snd
  if cfg.similarity_measure = "cosine" then some (S_cos q_ints r_ints)
  else
    let qn := normalize q_ints cfg.normalization_method
    let rn := normalize r_ints cfg.normalization_method
    if cfg.similarity_measure = "shannon" then some (S_shannon qn rn)
    else if cfg.similarity_measure = "renyi" then cfg.q.map (fun qq => S_renyi qn rn qq)
    else if cfg.similarity_measure = "tsallis" then cfg.q.map (fun qq => S_tsallis qn rn qq)
    else none

/-- One iteration of the LCMS script's reference loop (lines 143-182): read
the reference spectrum afresh, run the preprocessing pipeline on the pair,
append the similarity score, and carry the pipeline's final `q_spec` into the
next iteration. -/
noncomputable def lcmsStep (cfg : LcmsConfig) (st : Spectrum × List (Option ℝ))
    (r : Spectrum) : Spectrum × List (Option ℝ) :=
  let res := cfg.order.foldl (applyTransformation cfg) (st.1, r)
  (res.1, st.2 ++ [pairScore cfg res.1 res.2])

/-- The LCMS script's inner reference loop (lines 143-182) for one query.
The fold state is the script's `q_spec` variable, which is initialized once
per query (line 139) and is NOT reset between reference iterations: the
pipeline output for one reference is the pipeline input for the next. -/
noncomputable def lcmsRefLoop (cfg : LcmsConfig) (qInit : Spectrum)
    (refs : List Spectrum) : Spectrum × List (Option ℝ) :=
  refs.foldl (lcmsStep cfg) (qInit, [])

/-- The LCMS script's full query × reference double loop (lines 134-182):
one score row per query spectrum. -/
noncomputable def lcmsRun (cfg : LcmsConfig) (queries refs : List Spectrum) :
    List (List (Option ℝ)) :=
  queries.map (fun qspec => (lcmsRefLoop cfg qspec refs).2)

/-- Configuration state of `spec_lib_matching_gcms.py` (lines 53-91). -/
structure GcmsConfig where
  wf_mz : ℝ
  wf_intensity : ℝ
  normalization_method : String
  similarity_measure : String
  q : Option ℝ

/-- A GCMS CSV table: the mz values named by the column headers (columns 1..n)
and one row per spectrum, `(identifier, intensity list by column position)`. -/
structure GcmsTable where
  headerMzs : List ℚ
  rows : List (String × List ℝ)

/-- The GCMS script's mz vector (line 97):
`np.linspace(1, ncols-1, ncols-1) = [1, 2, ..., n]`, the positional column
indices, not the mz values named by the headers. -/
noncomputable def gcmsMzs (n : ℕ) : List ℝ :=
  (List.range n).map (fun (i : ℕ) => (i : ℝ) + 1)

/-- The GCMS weighting step (lines 101 and 108):
`np.power(mzs, wf_mz) * np.power(row, wf_intensity)` elementwise, with
`mzs = [1, ..., n]`. -/
noncomputable def gcmsWeightRow (n : ℕ) (wfm wfi : ℝ) (v : List ℝ) : List ℝ :=
  List.zipWith (fun m x => m ^ wfm * x ^ wfi) (gcmsMzs n) v

/-- The GCMS script's non-cosine measure dispatch (lines 116-121), applied to
the already-normalized query and reference vectors.  `none` models the
`NameError` crash on an unrecognized measure name or an unbound `q`. -/
noncomputable def gcmsEntropyScore (cfg : GcmsConfig) (qn rn : List ℝ) :
    Option ℝ :=
  if cfg.similarity_measure = "shannon" then some (S_shannon qn rn)
  else if cfg.similarity_measure = "renyi" then cfg.q.map (fun qq => S_renyi qn rn qq)
  else if cfg.similarity_measure = "tsallis" then cfg.q.map (fun qq => S_tsallis qn rn qq)
  else none

/-- One iteration of the GCMS script's reference loop (lines 104-123): weight
the freshly read reference row, dispatch on the similarity measure, append
the score; for non-cosine measures the script re-assigns `query_spec` to its
own normalization, so the normalized query is carried into the next
iteration. -/
noncomputable def gcmsStep (cfg : GcmsConfig) (n : ℕ)
    (st : List ℝ × List (Option ℝ)) (rRow : List ℝ) : List ℝ × List (Option ℝ) :=
  let rweighted := gcmsWeightRow n cfg.wf_mz cfg.wf_intensity rRow
  if cfg.similarity_measure = "cosine" then
    (st.1, st.2 ++ [some (S_cos st.1 rweighted)])
  else
    let qn := normalize st.1 cfg.normalization_method
    let rn := normalize rweighted cfg.normalization_method
    (qn, st.2 ++ [gcmsEntropyScore cfg qn rn])

/-- `k`-fold application of `normalize` (used to state what the GCMS loop's
carried `query_spec` is after `k` non-cosine iterations). -/
noncomputable def normalizeIter (method : String) : ℕ → List ℝ → List ℝ
  | 0, v => v
  | k + 1, v => normalizeIter method k (normalize v method)

/-- The GCMS script's inner reference loop (lines 103-123) for one query row. -/
noncomputable def gcmsScoresForQuery (cfg : GcmsConfig) (n : ℕ) (qRow : List ℝ)
    (refRows : List (List ℝ)) : List (Option ℝ) :=
  (refRows.foldl (gcmsStep cfg n)
    (gcmsWeightRow n cfg.wf_mz cfg.wf_intensity qRow, ([] : List (Option ℝ)))).2

/-- The GCMS script's full double loop (lines 96-124).  Only the width of the
query table and the intensity rows are consumed; the header mz values never
enter the computation. -/
noncomputable def gcmsRun (cfg : GcmsConfig) (queryTable refTable : GcmsTable) :
    List (List (Option ℝ)) :=
  let n := queryTable.headerMzs.length
  queryTable.rows.map (fun qr =>
    gcmsScoresForQuery cfg n qr.2 (refTable.rows.map Prod.snd))

/-- Embedding of the pandas call `Series.nlargest(n, keep='all')` used by
both scripts (LCMS line 193, GCMS line 135), for the script's range
`n ≥ 1`: sort descending by value (stably), and keep every entry whose value
is at least the value at cutoff rank `n` (so all entries tied with the
boundary value are kept, possibly more than `n`). -/
def nlargestAll {α : Type} [LinearOrder α] (n : ℕ) (xs : List (String × α)) :
    List (String × α) :=
  match ((xs.insertionSort (fun p q => q.2 ≤ p.2)).map Prod.snd).get? (n - 1) with
  | none => xs.insertionSort (fun p q => q.2 ≤ p.2)
  | some c => (xs.insertionSort (fun p q => q.2 ≤ p.2)).filter (fun p => c ≤ p.2)

instance {α : Type} [LinearOrder α] :
    IsTotal (String × α) (fun p q : String × α => q.2 ≤ p.2) :=
  ⟨fun a b => le_total b.2 a.2⟩

instance {α : Type} [LinearOrder α] :
    IsTrans (String × α) (fun p q : String × α => q.2 ≤ p.2) :=
  ⟨fun _ _ _ h1 h2 => le_trans h2 h1⟩

/-- One identification output row (LCMS lines 192-196, GCMS lines 134-138):
the ';'-joined identifiers of all selected references and the single first
(= highest) selected score.  `none` models the `IndexError` the script hits
on `values[0]` when the selection is empty. -/
def buildOutRow {α : Type} [LinearOrder α] (n : ℕ) (refIds : List String)
    (row : List α) : Option (String × α) :=
  match nlargestAll n (refIds.zip row) with
  | [] => none
  | top :: rest =>
    some (String.intercalate ";" ((top :: rest).map Prod.fst), top.2)

/-- The whole identification table: one output row per query
(LCMS lines 190-197, GCMS lines 132-139). -/
def buildIdentification {α : Type} [LinearOrder α] (n : ℕ) (refIds : List String)
    (scoreRows : List (List α)) : List (Option (String × α)) :=
  scoreRows.map (buildOutRow n refIds)

/-- The output column names (LCMS lines 200-204, GCMS lines 142-146): built
from `range(len(out[0]) / 2)` where every row `out[i]` is the two-element
list `[pred, score]`, so the range is `range(1)` whatever
`n_top_matches_to_save` was; an empty table yields no names (`out[0]` would
raise). -/
def outColumnNames {α : Type} (out : List (String × α)) : List String :=
  match out with
  | [] => []
  | _ :: _ =>
    (List.range (2 / 2)).map (fun i => "N" ++ toString (i + 1) ++ ".PRED") ++
    (List.range (2 / 2)).map (fun i => "N" ++ toString (i + 1) ++ ".SIMILARITY.SCORE")

/-- The weighting transform exactly as claim C4 words it: the mz base of the
first power is the spectrum's actual mass-to-charge value at each index
(stated for comparison with the GCMS script's `gcmsWeightRow`, whose mz base
is the positional index). -/
noncomputable def specWeightIntensities (mzs : List ℝ) (wfm wfi : ℝ)
    (v : List ℝ) : List ℝ :=
  List.zipWith (fun m x => m ^ wfm * x ^ wfi) mzs v

/-! ## Helper lemmas -/

theorem listSumMapDiv (l : List ℝ) (c : ℝ) :
    (l.map (fun x => x / c)).sum = l.sum / c := by
  induction l with
  | nil => simp
  | cons a t ih => simp [ih, add_div]

theorem normListZero (b : List ℝ) (hb : ∀ x ∈ b, x = 0) : normList b = 0 := by
  have hs : (b.map (fun x => x ^ 2)).sum = 0 := by
    refine List.sum_eq_zero ?_
    intro y hy
    rcases List.mem_map.mp hy with ⟨x, hx, rfl⟩
    rw [hb x hx]
    ring
  rw [normList, hs, Real.sqrt_zero]

theorem dedupSortSorted (l : List ℚ) : (dedupSort l).Sorted (· < ·) := by
  have hle : (l.insertionSort (fun x y => x ≤ y)).Sorted (fun x y => x ≤ y) :=
    List.sorted_insertionSort _ l
  have hsub : List.Sublist (dedupSort l) (l.insertionSort (fun x y => x ≤ y)) :=
    List.dedup_sublist _
  have hle' : (dedupSort l).Pairwise (fun x y => x ≤ y) :=
    List.Pairwise.sublist hsub hle
  have hnd : (dedupSort l).Nodup := List.nodup_dedup _
  exact (hle'.and hnd).imp (fun h => lt_of_le_of_ne h.1 h.2)

theorem dedupSortComm (a b : List ℚ) : dedupSort (a ++ b) = dedupSort (b ++ a) := by
  unfold dedupSort
  congr 1
  refine List.eq_of_perm_of_sorted ?_
    (List.sorted_insertionSort _ _) (List.sorted_insertionSort _ _)
  exact ((List.perm_insertionSort _ _).trans List.perm_append_comm).trans
    (List.perm_insertionSort _ _).symm

theorem groupGoHeads (w : ℚ) :
    ∀ (l : List ℚ) (b0 : ℚ) (acc : List ℚ), acc ≠ [] → acc.headD 0 = b0 →
      l.Sorted (· < ·) → (∀ x ∈ l, b0 < x) →
      ((groupByWindowGo w id b0 acc l).map (fun g => g.headD 0)).Sorted (· < ·) ∧
      ∀ y ∈ (groupByWindowGo w id b0 acc l).map (fun g => g.headD 0), b0 ≤ y := by
  intro l
  induction l with
  | nil =>
    intro b0 acc hne hacc _ _
    rw [groupByWindowGo]
    simp only [List.map_cons, List.map_nil]
    rw [hacc]
    refine ⟨List.sorted_singleton _, ?_⟩
    intro y hy
    rw [List.mem_singleton.mp hy]
  | cons x rest ih =>
    intro b0 acc hne hacc hsort hall
    rw [groupByWindowGo]
    rcases List.sorted_cons.mp hsort with ⟨hxrest, hrest⟩
    by_cases hx : id x - b0 ≤ w
    · rw [if_pos hx]
      refine ih b0 (acc ++ [x]) (by simp) ?_ hrest ?_
      · rcases acc with _ | ⟨a, t⟩
        · exact absurd rfl hne
        · simpa using hacc
      · intro y hy
        exact hall y (List.mem_cons_of_mem x hy)
    · rw [if_neg hx]
      have hb0x : b0 < x := hall x (List.mem_cons_self x rest)
      rcases ih x [x] (by simp) (by simp) hrest hxrest with ⟨h1, h2⟩
      constructor
      · rw [List.map_cons, hacc]
        refine List.sorted_cons.mpr ⟨?_, h1⟩
        intro y hy
        exact lt_of_lt_of_le hb0x (h2 y hy)
      · intro y hy
        rw [List.map_cons, hacc] at hy
        rcases List.mem_cons.mp hy with h | h
        · exact le_of_eq h.symm
        · exact le_of_lt (lt_of_lt_of_le hb0x (h2 y h))

theorem binsOfHeadsSorted (a b : List ℚ) (w : ℚ) :
    ((binsOf a b w).map (fun g => g.headD 0)).Sorted (· < ·) := by
  rw [binsOf]
  rcases h : dedupSort (a ++ b) with _ | ⟨x, rest⟩
  · rw [groupByWindow]
    simp
  · have hs : (x :: rest).Sorted (· < ·) := h ▸ dedupSortSorted (a ++ b)
    rcases List.sorted_cons.mp hs with ⟨hxr, hr⟩
    rw [groupByWindow]
    exact (groupGoHeads w rest x [x] (by simp) (by simp) hr hxr).1

theorem binsOfComm (a b : List ℚ) (w : ℚ) : binsOf a b w = binsOf b a w := by
  rw [binsOf, binsOf, dedupSortComm]

/-! ## Claim theorems -/

/-- Claim C5: cosine similarity is `dot(a,b) / (‖a‖·‖b‖)` and returns exactly
0 (not NaN, no exception) whenever either input has norm 0, in particular for
an all-zero reference spectrum. -/
theorem C5_cosine :
    (∀ a b : List ℝ, (∀ x ∈ b, x = 0) → S_cos a b = 0 ∧ S_cos b a = 0)
  ∧ (∀ a b : List ℝ, normList a ≠ 0 → normList b ≠ 0 →
        S_cos a b = dotList a b / (normList a * normList b)) := by
  constructor
  · intro a b hb
    constructor
    · rw [S_cos, if_pos (Or.inr (normListZero b hb))]
    · rw [S_cos, if_pos (Or.inl (normListZero b hb))]
  · intro a b ha hb
    rw [S_cos, if_neg (by push_neg; exact ⟨ha, hb⟩)]

/-- Witness for C5 at a concrete input: an all-zero vector scores 0 against
`[1, 2]` in both argument orders. -/
theorem C5_cosine_witness :
    S_cos [(1:ℝ), 2] [0, 0] = 0 ∧ S_cos [(0:ℝ), 0] [1, 2] = 0 :=
  C5_cosine.1 [1, 2] [0, 0] (by intro x hx; simp at hx; exact hx)

/-- Claim C7: the `standard` normalizer divides every element by the vector
sum and the result sums to 1 whenever the sum is nonzero; an all-zero vector
is returned unchanged rather than divided by zero. -/
theorem C7_normalizer :
    (∀ v : List ℝ, v.sum ≠ 0 →
        normalize v "standard" = v.map (fun x => x / v.sum) ∧
        (normalize v "standard").sum = 1)
  ∧ (∀ v : List ℝ, (∀ x ∈ v, x = 0) → normalize v "standard" = v) := by
  constructor
  · intro v hv
    have he : normalize v "standard" = v.map (fun x => x / v.sum) := by
      rw [normalize, if_pos rfl, if_neg hv]
    exact ⟨he, by rw [he, listSumMapDiv, div_self hv]⟩
  · intro v hv
    rw [normalize, if_pos rfl, if_pos (List.sum_eq_zero hv)]

/-- Witness for C7 at a concrete input: `[1, 3]` normalizes to `[1/4, 3/4]`,
which sums to 1. -/
theorem C7_normalizer_witness :
    normalize [(1:ℝ), 3] "standard" = [1/4, 3/4] ∧
    (normalize [(1:ℝ), 3] "standard").sum = 1 := by
  have h := C7_normalizer.1 [(1:ℝ), 3] (by norm_num)
  refine ⟨?_, h.2⟩
  rw [h.1]
  norm_num

/-- Claim C6: the low-entropy transform is the identity when the Shannon
entropy of the normalized vector is at least `LET_threshold`, raises every
input intensity to the power `(1+S)/(1+LET_threshold)` when `S` is below the
threshold, and its entropy uses the convention `0 · log 0 = 0` (a zero entry
contributes nothing). -/
theorem C6_low_entropy_transform :
    (∀ (v : List ℝ) (thr : ℝ) (method : String),
        thr ≤ shannonEntropy (normalize v method) →
        transform_int v thr method = v)
  ∧ (∀ (v : List ℝ) (thr : ℝ) (method : String),
        shannonEntropy (normalize v method) < thr →
        transform_int v thr method =
          v.map (fun x => x ^ ((1 + shannonEntropy (normalize v method)) / (1 + thr))))
  ∧ (∀ p : List ℝ, shannonEntropy (0 :: p) = shannonEntropy p) := by
  refine ⟨?_, ?_, ?_⟩
  · intro v thr method h
    simp only [transform_int]
    rw [if_neg (not_lt.mpr h)]
  · intro v thr method h
    simp only [transform_int]
    rw [if_pos h]
  · intro p
    simp [shannonEntropy, Real.log_zero]

/-- Witness for C6 at a concrete input: `[5]` normalizes to `[1]`, has
Shannon entropy 0, and with `LET_threshold = 0` the transform is a no-op. -/
theorem C6_low_entropy_transform_witness :
    shannonEntropy (normalize [(5:ℝ)] "standard") = 0 ∧
    transform_int [(5:ℝ)] 0 "standard" = [5] := by
  have hn : normalize [(5:ℝ)] "standard" = [1] := by
    rw [normalize, if_pos rfl, if_neg (by norm_num : ([(5:ℝ)]).sum ≠ 0)]
    norm_num
  have hS : shannonEntropy (normalize [(5:ℝ)] "standard") = 0 := by
    rw [hn]
    simp [shannonEntropy]
  exact ⟨hS, C6_low_entropy_transform.1 [5] 0 "standard" (le_of_eq hS.symm)⟩

/-- Claim C8: peak alignment outputs two intensity vectors of equal length,
index-aligned to one shared bin sequence whose representative mz values are
sorted strictly ascending; the bin sequence is the same for `match(a,b)` and
`match(b,a)`; and a spectrum with no peak in a bin contributes intensity 0
there. -/
theorem C8_matcher :
    (∀ (sa sb : Spectrum) (w : ℚ),
        ((match_peaks_in_spectra sa sb w).map (fun x => x.2.1)).length =
        ((match_peaks_in_spectra sa sb w).map (fun x => x.2.2)).length)
  ∧ (∀ (sa sb : Spectrum) (w : ℚ),
        ((match_peaks_in_spectra sa sb w).map (fun x => x.1)).Sorted (· < ·))
  ∧ (∀ (sa sb : Spectrum) (w : ℚ),
        (match_peaks_in_spectra sa sb w).map (fun x => x.1) =
        (match_peaks_in_spectra sb sa w).map (fun x => x.1))
  ∧ (∀ (sa sb : Spectrum) (w : ℚ),
        ∀ bin ∈ binsOf (sa.map Prod.fst) (sb.map Prod.fst) w,
          (∀ p ∈ sa, p.1 ∉ bin) → intensityIn sa bin = 0) := by
  refine ⟨?_, ?_, ?_, ?_⟩
  · intro sa sb w
    simp [match_peaks_in_spectra]
  · intro sa sb w
    have : (match_peaks_in_spectra sa sb w).map (fun x => x.1) =
        (binsOf (sa.map Prod.fst) (sb.map Prod.fst) w).map (fun g => g.headD 0) := by
      rw [match_peaks_in_spectra, List.map_map]
      rfl
    rw [this]
    exact binsOfHeadsSorted _ _ _
  · intro sa sb w
    rw [match_peaks_in_spectra, match_peaks_in_spectra, List.map_map, List.map_map,
      binsOfComm]
    rfl
  · intro sa sb w bin _ hno
    rw [intensityIn]
    have hfil : sa.filter (fun p => decide (p.1 ∈ bin)) = [] := by
      rw [List.filter_eq_nil_iff]
      intro p hp
      simpa using hno p hp
    rw [hfil]
    simp

/-- Witness for C8 at concrete spectra `[(1, 2)]` and `[(2, 3)]` with window
1/2: equal output lengths, sorted shared bins, symmetric bin sequence, and a
zero contribution at the bin `[2]` where the first spectrum has no peak. -/
theorem C8_matcher_witness :
    ((match_peaks_in_spectra [((1:ℚ), (2:ℝ))] [((2:ℚ), (3:ℝ))] (1/2)).map
        (fun x => x.2.1)).length =
      ((match_peaks_in_spectra [((1:ℚ), (2:ℝ))] [((2:ℚ), (3:ℝ))] (1/2)).map
        (fun x => x.2.2)).length ∧
    ((match_peaks_in_spectra [((1:ℚ), (2:ℝ))] [((2:ℚ), (3:ℝ))] (1/2)).map
        (fun x => x.1)).Sorted (· < ·) ∧
    (match_peaks_in_spectra [((1:ℚ), (2:ℝ))] [((2:ℚ), (3:ℝ))] (1/2)).map
        (fun x => x.1) =
      (match_peaks_in_spectra [((2:ℚ), (3:ℝ))] [((1:ℚ), (2:ℝ))] (1/2)).map
        (fun x => x.1) ∧
    intensityIn [((1:ℚ), (2:ℝ))] [2] = 0 :=
  ⟨C8_matcher.1 [((1:ℚ), (2:ℝ))] [((2:ℚ), (3:ℝ))] (1/2),
   C8_matcher.2.1 [((1:ℚ), (2:ℝ))] [((2:ℚ), (3:ℝ))] (1/2),
   C8_matcher.2.2.1 [((1:ℚ), (2:ℝ))] [((2:ℚ), (3:ℝ))] (1/2),
   C8_matcher.2.2.2 [((1:ℚ), (2:ℝ))] [((2:ℚ), (3:ℝ))] (1/2) [2]
     (by norm_num [binsOf, dedupSort, groupByWindow, groupByWindowGo,
        List.insertionSort, List.orderedInsert, List.dedup])
     (by norm_num)⟩

/-- Claim C3: top-N selection has largest-N keep-all-ties semantics — every
entry whose score is at least the score at cutoff rank `n` is selected (in
particular all entries tied with the boundary score) — and the first selected
entry is a highest-scoring one, whose score is the single representative
value the output row reports. -/
theorem C3_topn {α : Type} [LinearOrder α] (n : ℕ) (xs : List (String × α)) :
    (∀ c, ((xs.insertionSort (fun p q => q.2 ≤ p.2)).map Prod.snd).get? (n - 1) =
        some c → ∀ p ∈ xs, c ≤ p.2 → p ∈ nlargestAll n xs)
  ∧ (∀ top rest, nlargestAll n xs = top :: rest →
        top ∈ xs ∧ ∀ p ∈ xs, p.2 ≤ top.2) := by
  have hperm := List.perm_insertionSort (fun p q : String × α => q.2 ≤ p.2) xs
  have hsorted := List.sorted_insertionSort (fun p q : String × α => q.2 ≤ p.2) xs
  constructor
  · intro c hc p hp hcp
    have hmem : p ∈ xs.insertionSort (fun p q => q.2 ≤ p.2) := hperm.mem_iff.mpr hp
    unfold nlargestAll
    rw [hc]
    exact List.mem_filter.mpr ⟨hmem, by simpa using hcp⟩
  · intro top rest heq
    unfold nlargestAll at heq
    rcases hget : ((xs.insertionSort (fun p q => q.2 ≤ p.2)).map Prod.snd).get? (n - 1)
        with _ | c
    · rw [hget] at heq
      simp only at heq
      rw [heq] at hperm hsorted
      refine ⟨hperm.subset (List.mem_cons_self top rest), ?_⟩
      intro p hp
      rcases List.mem_cons.mp (hperm.mem_iff.mpr hp) with h | h
      · rw [h]
      · exact (List.sorted_cons.mp hsorted).1 p h
    · rw [hget] at heq
      simp only at heq
      rcases hs : xs.insertionSort (fun p q : String × α => q.2 ≤ p.2)
          with _ | ⟨s0, srest⟩
      · rw [hs] at heq
        simp at heq
      · rw [hs] at heq hperm hsorted hget
        have hcs0 : c ≤ s0.2 := by
          have hcmem : c ∈ (s0 :: srest).map Prod.snd := List.get?_mem hget
          rcases List.mem_map.mp hcmem with ⟨q, hq, rfl⟩
          rcases List.mem_cons.mp hq with h | h
          · rw [h]
          · exact (List.sorted_cons.mp hsorted).1 q h
        rw [List.filter_cons_of_pos (by simpa using hcs0)] at heq
        have htop : top = s0 := ((List.cons.injEq _ _ _ _).mp heq).1.symm
        subst htop
        refine ⟨hperm.subset (List.mem_cons_self _ _), ?_⟩
        intro p hp
        rcases List.mem_cons.mp (hperm.mem_iff.mpr hp) with h | h
        · rw [h]
        · exact (List.sorted_cons.mp hsorted).1 p h

/-- Witness for C3 at the claim's concrete example: scores
`[9/10, 9/10, 1/2]` with `n = 1` select both tied references, and every
score is bounded by the reported representative score `9/10`. -/
theorem C3_topn_witness :
    (("B", (9:ℚ)/10) ∈
        nlargestAll 1 [("A", (9:ℚ)/10), ("B", 9/10), ("C", 1/2)]) ∧
    nlargestAll 1 [("A", (9:ℚ)/10), ("B", 9/10), ("C", 1/2)] =
      [("A", 9/10), ("B", 9/10)] ∧
    (∀ p ∈ [("A", (9:ℚ)/10), ("B", 9/10), ("C", 1/2)], p.2 ≤ (9:ℚ)/10) := by
  have heval : nlargestAll 1 [("A", (9:ℚ)/10), ("B", 9/10), ("C", 1/2)] =
      [("A", 9/10), ("B", 9/10)] := by
    norm_num [nlargestAll, List.insertionSort, List.orderedInsert, List.get?]
  refine ⟨?_, heval, ?_⟩
  · refine (C3_topn 1 [("A", (9:ℚ)/10), ("B", 9/10), ("C", 1/2)]).1 (9/10) ?_
      ("B", 9/10) (List.mem_cons_of_mem _ (List.mem_cons_self _ _)) (le_refl _)
    norm_num [List.insertionSort, List.orderedInsert, List.get?]
  · exact ((C3_topn 1 [("A", (9:ℚ)/10), ("B", 9/10), ("C", 1/2)]).2
      ("A", 9/10) [("B", 9/10)] heval).2

theorem zipWithSndEq {β : Type} (as : List β) (bs : List ℝ)
    (h : as.length = bs.length) : List.zipWith (fun _ x => x) as bs = bs := by
  induction as generalizing bs with
  | nil =>
    cases bs with
    | nil => rfl
    | cons b bt => simp at h
  | cons a t ih =>
    cases bs with
    | nil => simp at h
    | cons b bt =>
      rw [List.zipWith_cons_cons, ih bt (by simpa using h)]

theorem gcmsMzsGet (n i : ℕ) (hi : i < n) :
    (gcmsMzs n).get? i = some ((i : ℝ) + 1) := by
  rw [gcmsMzs, List.get?_map, List.get?_range hi, Option.map_some']

theorem gcmsMzsLength (n : ℕ) : (gcmsMzs n).length = n := by
  rw [gcmsMzs, List.length_map, List.length_range]

theorem gcmsMzsTwo : gcmsMzs 2 = [1, 2] := by
  rw [gcmsMzs, show (2:ℕ) = 1 + 1 from rfl, List.range_succ, List.range_succ,
    List.range_zero]
  norm_num

/-- Claim C10 (amended framing is not needed; this is the claim as stated):
for every `n_top_matches_to_save`, an identification output row has exactly
two fields — the ';'-joined identifiers of all selected references and one
representative score (the first, i.e. highest, selected score) — and the
column names are always exactly `N1.PRED` and `N1.SIMILARITY.SCORE`,
independent of `n`, so the scores of the 2nd..N-th matches are never
reported. -/
theorem C10_output_row {α : Type} [LinearOrder α] :
    (∀ out : List (String × α), out ≠ [] →
        outColumnNames out = ["N1.PRED", "N1.SIMILARITY.SCORE"])
  ∧ (∀ (n : ℕ) (refIds : List String) (row : List α) (pr : String × α),
        buildOutRow n refIds row = some pr →
        pr.1 = String.intercalate ";" ((nlargestAll n (refIds.zip row)).map Prod.fst) ∧
        ((nlargestAll n (refIds.zip row)).map Prod.snd).head? = some pr.2) := by
  constructor
  · intro out hne
    rcases out with _ | ⟨r, rest⟩
    · exact absurd rfl hne
    · rfl
  · intro n refIds row pr hpr
    unfold buildOutRow at hpr
    rcases hsel : nlargestAll n (refIds.zip row) with _ | ⟨top, rest⟩
    · rw [hsel] at hpr
      exact absurd hpr (by simp)
    · rw [hsel] at hpr
      have hinj : (String.intercalate ";" ((top :: rest).map Prod.fst), top.2) = pr :=
        Option.some.inj hpr
      rw [← hinj]
      exact ⟨rfl, rfl⟩

/-- Witness for C10 at a concrete input with `n = 3`: the output row is the
pair `("A;B", 1/2)` and the column-name list still has exactly the two
entries. -/
theorem C10_output_row_witness :
    outColumnNames [("A;B", (9:ℚ)/10)] = ["N1.PRED", "N1.SIMILARITY.SCORE"] ∧
    buildOutRow 3 ["A", "B"] [(1:ℚ)/2, 1/3] = some ("A;B", 1/2) ∧
    ("A;B" : String) = String.intercalate ";"
      ((nlargestAll 3 (["A", "B"].zip [(1:ℚ)/2, 1/3])).map Prod.fst) ∧
    ((nlargestAll 3 (["A", "B"].zip [(1:ℚ)/2, 1/3])).map Prod.snd).head? =
      some (1/2) := by
  have heval : buildOutRow 3 ["A", "B"] [(1:ℚ)/2, 1/3] = some ("A;B", 1/2) := by
    norm_num [buildOutRow, nlargestAll, List.insertionSort, List.orderedInsert,
      List.get?, List.zip, List.zipWith]
    rfl
  have h2 := C10_output_row.2 3 ["A", "B"] [(1:ℚ)/2, 1/3] ("A;B", 1/2) heval
  exact ⟨C10_output_row.1 [("A;B", (9:ℚ)/10)] (by simp), heval, h2.1, h2.2⟩

/-- Counterexample to claim C4 as stated: in the GCMS script the mz base of
the weighting power is the positional index `i+1`, not the spectrum's actual
mass-to-charge value — with header mz values `[10, 20]`, unit intensities and
`wf_mz = wf_intensity = 1` the script computes `[1, 2]` while the claimed
formula gives `[10, 20]`. -/
theorem C4_weighting_counterexample :
    gcmsWeightRow 2 1 1 [1, 1] ≠
      specWeightIntensities [((10:ℚ):ℝ), ((20:ℚ):ℝ)] 1 1 [1, 1] := by
  have h1 : gcmsWeightRow 2 1 1 [1, 1] = [1, 2] := by
    rw [gcmsWeightRow, gcmsMzsTwo]
    norm_num [Real.rpow_one]
  have h2 : specWeightIntensities [((10:ℚ):ℝ), ((20:ℚ):ℝ)] 1 1 [1, 1] = [10, 20] := by
    rw [specWeightIntensities]
    norm_num [Real.rpow_one]
  rw [h1, h2]
  intro h
  have := (List.cons.injEq _ _ _ _).mp h
  norm_num at this

/-- Claim C4 amended: the LCMS weighting uses the spectrum's actual mz values
elementwise with `new_intensity[i] = mz[i]^wf_mz * intensity[i]^wf_intensity`
and is the identity on intensities at the defaults `wf_mz = 0`,
`wf_intensity = 1`; the GCMS weighting applies the same formula but with the
positional index `i+1` in place of the actual mz value (and is likewise the
identity at the defaults). -/
theorem C4_weighting_amended :
    (∀ (wfm wfi : ℝ) (s : Spectrum) (i : ℕ),
        (weightSpectrum wfm wfi s).get? i =
          (s.get? i).map (fun p => (p.1, (p.1 : ℝ) ^ wfm * p.2 ^ wfi)))
  ∧ (∀ s : Spectrum, weightSpectrum 0 1 s = s)
  ∧ (∀ (wfm wfi : ℝ) (n : ℕ) (v : List ℝ) (i : ℕ), i < n →
        (gcmsWeightRow n wfm wfi v).get? i =
          (v.get? i).map (fun x => ((i : ℝ) + 1) ^ wfm * x ^ wfi))
  ∧ (∀ (n : ℕ) (v : List ℝ), v.length = n → gcmsWeightRow n 0 1 v = v) := by
  refine ⟨?_, ?_, ?_, ?_⟩
  · intro wfm wfi s i
    rw [weightSpectrum, List.get?_map]
  · intro s
    simp [weightSpectrum, Real.rpow_zero, Real.rpow_one]
  · intro wfm wfi n v i hi
    rw [gcmsWeightRow, List.get?_zipWith', gcmsMzsGet n i hi]
    cases v.get? i <;> simp
  · intro n v hlen
    rw [gcmsWeightRow]
    have hfun : (fun m x : ℝ => m ^ (0:ℝ) * x ^ (1:ℝ)) = fun _ x => x := by
      funext m x
      rw [Real.rpow_zero, Real.rpow_one, one_mul]
    rw [hfun]
    exact zipWithSndEq _ _ (by rw [gcmsMzsLength, hlen])

/-- Witness for the amended C4 at concrete inputs: both weightings are the
identity at the default exponents. -/
theorem C4_weighting_witness :
    weightSpectrum 0 1 [((1:ℚ), (5:ℝ))] = [(1, 5)] ∧
    gcmsWeightRow 2 0 1 [(3:ℝ), 4] = [3, 4] :=
  ⟨C4_weighting_amended.2.1 [((1:ℚ), (5:ℝ))],
   C4_weighting_amended.2.2.2 2 [(3:ℝ), 4] rfl⟩

theorem gcmsCosineFold (cfg : GcmsConfig) (hm : cfg.similarity_measure = "cosine")
    (n : ℕ) (qw : List ℝ) (refRows : List (List ℝ)) :
    ∀ acc : List (Option ℝ),
      refRows.foldl (gcmsStep cfg n) (qw, acc) =
        (qw, acc ++ refRows.map (fun r =>
          some (S_cos qw (gcmsWeightRow n cfg.wf_mz cfg.wf_intensity r)))) := by
  induction refRows with
  | nil => intro acc; simp
  | cons r rs ih =>
    intro acc
    rw [List.foldl_cons]
    have hstep : gcmsStep cfg n (qw, acc) r =
        (qw, acc ++ [some (S_cos qw (gcmsWeightRow n cfg.wf_mz cfg.wf_intensity r))]) := by
      simp only [gcmsStep]
      rw [if_pos hm]
    rw [hstep, ih]
    simp

theorem gcmsStepSplit (cfg : GcmsConfig) (n : ℕ) (q : List ℝ)
    (acc : List (Option ℝ)) (r : List ℝ) :
    gcmsStep cfg n (q, acc) r =
      ((gcmsStep cfg n (q, []) r).1, acc ++ (gcmsStep cfg n (q, []) r).2) := by
  by_cases h : cfg.similarity_measure = "cosine" <;> simp [gcmsStep, h]

theorem gcmsFoldSplit (cfg : GcmsConfig) (n : ℕ) :
    ∀ (refRows : List (List ℝ)) (qw : List ℝ) (acc : List (Option ℝ)),
      refRows.foldl (gcmsStep cfg n) (qw, acc) =
        ((refRows.foldl (gcmsStep cfg n) (qw, [])).1,
         acc ++ (refRows.foldl (gcmsStep cfg n) (qw, [])).2) := by
  intro refRows
  induction refRows with
  | nil => intro qw acc; simp
  | cons r rs ih =>
    intro qw acc
    rw [List.foldl_cons, List.foldl_cons, gcmsStepSplit cfg n qw acc r]
    rcases hst : gcmsStep cfg n (qw, []) r with ⟨s1, s2⟩
    dsimp only
    rw [ih s1 (acc ++ s2), ih s1 s2]
    dsimp only
    rw [List.append_assoc]

theorem gcmsStepNonCosine (cfg : GcmsConfig)
    (hm : cfg.similarity_measure ≠ "cosine") (n : ℕ) (q : List ℝ)
    (acc : List (Option ℝ)) (r : List ℝ) :
    gcmsStep cfg n (q, acc) r =
      (normalize q cfg.normalization_method,
       acc ++ [gcmsEntropyScore cfg (normalize q cfg.normalization_method)
         (normalize (gcmsWeightRow n cfg.wf_mz cfg.wf_intensity r)
           cfg.normalization_method)]) := by
  simp only [gcmsStep]
  rw [if_neg hm]

theorem gcmsNonCosineFoldGet (cfg : GcmsConfig)
    (hm : cfg.similarity_measure ≠ "cosine") (n : ℕ) :
    ∀ (refRows : List (List ℝ)) (qw : List ℝ) (j : ℕ),
      ((refRows.foldl (gcmsStep cfg n) (qw, [])).2).get? j =
        (refRows.get? j).map (fun r => gcmsEntropyScore cfg
          (normalizeIter cfg.normalization_method (j + 1) qw)
          (normalize (gcmsWeightRow n cfg.wf_mz cfg.wf_intensity r)
            cfg.normalization_method)) := by
  intro refRows
  induction refRows with
  | nil => intro qw j; simp
  | cons r rs ih =>
    intro qw j
    rw [List.foldl_cons, gcmsStepNonCosine cfg hm n qw [] r]
    simp only [List.nil_append]
    rw [gcmsFoldSplit cfg n rs]
    dsimp only
    simp only [List.cons_append, List.nil_append]
    cases j with
    | zero =>
      rw [List.get?_cons_zero, List.get?_cons_zero, Option.map_some']
      simp [normalizeIter]
    | succ j' =>
      rw [List.get?_cons_succ, List.get?_cons_succ]
      exact ih (normalize qw cfg.normalization_method) j'

/-- Claim C9: the GCMS script applies no cleaning, no peak alignment and no
low-entropy transform — the run never reads the header mz values (only the
query table's column count and the intensity rows by position enter the
computation); every cosine score is the index-wise cosine of the two weighted
rows; for every non-cosine measure the `j`-th score is the measure dispatch
applied to the weighted query normalized `j+1` times (the script re-assigns
`query_spec` to its own normalization each iteration) and the normalized
weighted reference — that is, weighting followed by normalization only; and
the weighting's mz vector is the fixed positional sequence `1, 2, ..., n`. -/
theorem C9_gcms_positional :
    (∀ (cfg : GcmsConfig) (h h' hr hr' : List ℚ)
        (rows rrows : List (String × List ℝ)), h.length = h'.length →
        gcmsRun cfg ⟨h, rows⟩ ⟨hr, rrows⟩ = gcmsRun cfg ⟨h', rows⟩ ⟨hr', rrows⟩)
  ∧ (∀ cfg : GcmsConfig, cfg.similarity_measure = "cosine" →
      ∀ (n : ℕ) (qRow : List ℝ) (refRows : List (List ℝ)) (j : ℕ),
        (gcmsScoresForQuery cfg n qRow refRows).get? j =
          (refRows.get? j).map (fun r =>
            some (S_cos (gcmsWeightRow n cfg.wf_mz cfg.wf_intensity qRow)
              (gcmsWeightRow n cfg.wf_mz cfg.wf_intensity r))))
  ∧ (∀ cfg : GcmsConfig, cfg.similarity_measure ≠ "cosine" →
      ∀ (n : ℕ) (qRow : List ℝ) (refRows : List (List ℝ)) (j : ℕ),
        (gcmsScoresForQuery cfg n qRow refRows).get? j =
          (refRows.get? j).map (fun r => gcmsEntropyScore cfg
            (normalizeIter cfg.normalization_method (j + 1)
              (gcmsWeightRow n cfg.wf_mz cfg.wf_intensity qRow))
            (normalize (gcmsWeightRow n cfg.wf_mz cfg.wf_intensity r)
              cfg.normalization_method)))
  ∧ (∀ n i : ℕ, i < n → (gcmsMzs n).get? i = some ((i : ℝ) + 1)) := by
  refine ⟨?_, ?_, ?_, gcmsMzsGet⟩
  · intro cfg h h' hr hr' rows rrows hlen
    simp only [gcmsRun]
    rw [hlen]
  · intro cfg hm n qRow refRows j
    rw [gcmsScoresForQuery, gcmsCosineFold cfg hm]
    simp [List.get?_map]
  · intro cfg hm n qRow refRows j
    rw [gcmsScoresForQuery]
    exact gcmsNonCosineFoldGet cfg hm n refRows
      (gcmsWeightRow n cfg.wf_mz cfg.wf_intensity qRow) j

/-- Witness for C9 at concrete inputs: replacing the header mz values `[5]`
and `[]` by `[7]` and `[9]` leaves the run unchanged; the single cosine score
is the cosine of the weighted rows; with the shannon measure the single score
is the measure dispatch applied to the once-normalized weighted query and the
normalized weighted reference; and the 1-column mz vector is `[1]`. -/
theorem C9_gcms_positional_witness :
    gcmsRun ⟨0, 1, "standard", "cosine", none⟩ ⟨[5], [("q", [2])]⟩ ⟨[], [("r", [3])]⟩ =
      gcmsRun ⟨0, 1, "standard", "cosine", none⟩ ⟨[7], [("q", [2])]⟩ ⟨[9], [("r", [3])]⟩ ∧
    (gcmsScoresForQuery ⟨0, 1, "standard", "cosine", none⟩ 1 [2] [[3]]).get? 0 =
      some (some (S_cos (gcmsWeightRow 1 0 1 [2]) (gcmsWeightRow 1 0 1 [3]))) ∧
    (gcmsScoresForQuery ⟨0, 1, "standard", "shannon", none⟩ 1 [2] [[3]]).get? 0 =
      some (gcmsEntropyScore ⟨0, 1, "standard", "shannon", none⟩
        (normalizeIter "standard" 1 (gcmsWeightRow 1 0 1 [2]))
        (normalize (gcmsWeightRow 1 0 1 [3]) "standard")) ∧
    (gcmsMzs 1).get? 0 = some 1 := by
  refine ⟨C9_gcms_positional.1 _ [5] [7] [] [9] _ _ rfl, ?_, ?_, ?_⟩
  · have h := C9_gcms_positional.2.1 ⟨0, 1, "standard", "cosine", none⟩ rfl 1 [2] [[3]] 0
    simpa using h
  · have h := C9_gcms_positional.2.2.1 ⟨0, 1, "standard", "shannon", none⟩
      (by decide) 1 [2] [[3]] 0
    simpa using h
  · have h := C9_gcms_positional.2.2.2 1 0 (by norm_num)
    simpa using h

theorem weightSpectrumId (s : Spectrum) : weightSpectrum 0 1 s = s := by
  simp [weightSpectrum, Real.rpow_zero, Real.rpow_one]

theorem rpowTwo (x : ℝ) : x ^ (2:ℝ) = x * x := by
  rw [show (2:ℝ) = ((2:ℕ):ℝ) by norm_num, Real.rpow_natCast]
  ring

theorem applyW (cfg : LcmsConfig) (q r : Spectrum) :
    applyTransformation cfg (q, r) 'W' =
      (weightSpectrum cfg.wf_mz cfg.wf_intensity q,
       weightSpectrum cfg.wf_mz cfg.wf_intensity r) := by
  simp [applyTransformation]

theorem applyM (cfg : LcmsConfig) (q r : Spectrum) :
    applyTransformation cfg (q, r) 'M' =
      ((match_peaks_in_spectra q r cfg.window_size).map (fun x => (x.1, x.2.1)),
       (match_peaks_in_spectra q r cfg.window_size).map (fun x => (x.1, x.2.2))) := by
  simp [applyTransformation]

theorem pairScoreCosine (cfg : LcmsConfig)
    (hm : cfg.similarity_measure = "cosine") (qs rs : Spectrum) :
    pairScore cfg qs rs = some (S_cos (qs.map Prod.snd) (rs.map Prod.snd)) := by
  simp only [pairScore]
  rw [if_pos hm]

theorem weightTwoPeaks (x y : ℝ) :
    weightSpectrum 0 2 [((1:ℚ), x), ((2:ℚ), y)] = [(1, x * x), (2, y * y)] := by
  rw [weightSpectrum]
  simp [Real.rpow_zero, rpowTwo]
  exact ⟨pow_two x, pow_two y⟩

theorem matchTwoBins (a b c d : ℝ) :
    match_peaks_in_spectra [((1:ℚ), a), ((2:ℚ), b)] [((1:ℚ), c), ((2:ℚ), d)]
        (1/2) = [(1, a, c), (2, b, d)] := by
  have hbins : binsOf [(1:ℚ), 2] [(1:ℚ), 2] (1/2) = [[1], [2]] := by
    norm_num [binsOf, dedupSort, groupByWindow, groupByWindowGo,
      List.insertionSort, List.orderedInsert, List.dedup]
  have h1 : ∀ x y : ℝ, intensityIn [((1:ℚ), x), ((2:ℚ), y)] [1] = x := by
    intro x y
    rw [intensityIn]
    norm_num [List.filter_cons]
  have h2 : ∀ x y : ℝ, intensityIn [((1:ℚ), x), ((2:ℚ), y)] [2] = y := by
    intro x y
    rw [intensityIn]
    norm_num [List.filter_cons]
  rw [match_peaks_in_spectra,
    show ([((1:ℚ), a), ((2:ℚ), b)]).map Prod.fst = [1, 2] from rfl,
    show ([((1:ℚ), c), ((2:ℚ), d)]).map Prod.fst = [1, 2] from rfl, hbins]
  simp [h1, h2]

theorem normListTwo (x y : ℝ) : normList [x, y] = Real.sqrt (x^2 + y^2) := by
  rw [normList]
  norm_num

theorem dotListTwo (x y u v : ℝ) : dotList [x, y] [u, v] = x*u + y*v := by
  rw [dotList]
  norm_num [List.zipWith]

theorem sCosTwo (x y u v : ℝ) (hxy : Real.sqrt (x^2 + y^2) ≠ 0)
    (huv : Real.sqrt (u^2 + v^2) ≠ 0) :
    S_cos [x, y] [u, v] =
      (x*u + y*v) / (Real.sqrt (x^2 + y^2) * Real.sqrt (u^2 + v^2)) := by
  rw [S_cos, normListTwo, normListTwo, dotListTwo,
    if_neg (by push_neg; exact ⟨hxy, huv⟩)]

theorem lcmsStepWMTwoPeaks (x y u v : ℝ)
    (hxy : Real.sqrt ((x*x)^2 + (y*y)^2) ≠ 0)
    (huv : Real.sqrt ((u*u)^2 + (v*v)^2) ≠ 0) (acc : List (Option ℝ)) :
    lcmsStep (⟨['W', 'M'], 1/2, 0, 0, 2, 0, "standard", "cosine", none⟩ : LcmsConfig)
        ([((1:ℚ), x), ((2:ℚ), y)], acc) [((1:ℚ), u), ((2:ℚ), v)] =
      ([((1:ℚ), x * x), ((2:ℚ), y * y)],
        acc ++ [some ((x*x*(u*u) + y*y*(v*v)) /
          (Real.sqrt ((x*x)^2 + (y*y)^2) * Real.sqrt ((u*u)^2 + (v*v)^2)))]) := by
  simp only [lcmsStep]
  rw [List.foldl_cons, applyW,
    show (⟨['W', 'M'], 1/2, 0, 0, 2, 0, "standard", "cosine", none⟩ :
      LcmsConfig).wf_mz = 0 from rfl,
    show (⟨['W', 'M'], 1/2, 0, 0, 2, 0, "standard", "cosine", none⟩ :
      LcmsConfig).wf_intensity = 2 from rfl,
    weightTwoPeaks, weightTwoPeaks, List.foldl_cons, applyM,
    show (⟨['W', 'M'], 1/2, 0, 0, 2, 0, "standard", "cosine", none⟩ :
      LcmsConfig).window_size = 1/2 from rfl,
    matchTwoBins, List.foldl_nil]
  simp only [List.map_cons, List.map_nil]
  rw [pairScoreCosine _ rfl]
  simp only [List.map_cons, List.map_nil]
  rw [sCosTwo _ _ _ _ hxy huv]

theorem lcmsScoreNe :
    (5:ℝ) / (Real.sqrt 17 * Real.sqrt 2) ≠ 17 / (Real.sqrt 257 * Real.sqrt 2) := by
  intro h
  have h2 : ((5:ℝ) / (Real.sqrt 17 * Real.sqrt 2))^2 =
      (17 / (Real.sqrt 257 * Real.sqrt 2))^2 := by rw [h]
  rw [div_pow, div_pow, mul_pow, mul_pow,
    Real.sq_sqrt (by norm_num : (0:ℝ) ≤ 17),
    Real.sq_sqrt (by norm_num : (0:ℝ) ≤ 2),
    Real.sq_sqrt (by norm_num : (0:ℝ) ≤ 257)] at h2
  norm_num at h2

theorem normalizeSingleton (x : ℝ) (hx : x ≠ 0) :
    normalize [x] "standard" = [1] := by
  rw [normalize, if_pos rfl, if_neg (by simpa using hx)]
  simp [div_self hx]

theorem renyiEntropyAtOne (p : List ℝ) : renyiEntropy p 1 = 0 := by
  rw [renyiEntropy]
  norm_num

theorem sRenyiAtOne (a b : List ℝ) : S_renyi a b 1 = 1 := by
  rw [S_renyi, renyiEntropyAtOne, renyiEntropyAtOne, renyiEntropyAtOne]
  norm_num

/-- Claim C2 is violated by the code: the LCMS script performs no
configuration validation at all.  With a preprocessing order `"W"` that lacks
the mandatory `'M'`, measure `renyi` and the forbidden entropy dimension
`q = 1`, the configuration loader accepts everything and the engine runs the
comparison to completion, producing the (meaningless) score 1 instead of
aborting before any comparison. -/
theorem C2_no_config_validation :
    (lcmsLoadConfig ⟨some "W", some "renyi", none, none, none, none, none, some 1,
        none, none⟩).order = ['W'] ∧
    (lcmsLoadConfig ⟨some "W", some "renyi", none, none, none, none, none, some 1,
        none, none⟩).q = some 1 ∧
    lcmsRun (lcmsLoadConfig ⟨some "W", some "renyi", none, none, none, none, none,
        some 1, none, none⟩) [[((1:ℚ), (2:ℝ))]] [[((1:ℚ), (2:ℝ))]] = [[some 1]] := by
  have hcfg : lcmsLoadConfig ⟨some "W", some "renyi", none, none, none, none, none,
      some 1, none, none⟩ =
      ⟨['W'], 1/2, 0, 0, 1, 0, "standard", "renyi", some 1⟩ := rfl
  refine ⟨by rw [hcfg], by rw [hcfg], ?_⟩
  rw [hcfg]
  have hpair : ∀ w : ℚ, pairScore ⟨['W'], w, 0, 0, 1, 0, "standard", "renyi", some 1⟩
      [((1:ℚ), (2:ℝ))] [((1:ℚ), (2:ℝ))] = some 1 := by
    intro w
    simp [pairScore, normalizeSingleton, sRenyiAtOne]
  simp [lcmsRun, lcmsRefLoop, lcmsStep, applyTransformation, weightSpectrumId, hpair]

/-- Claim C1 is violated by the code: the LCMS script's `q_spec` is not reset
between reference iterations, so pipeline transformations applied while
scoring one reference carry over into the next comparison.  With
preprocessing order `"WM"` and `wf_intensity = 2`, the same reference
spectrum listed twice receives two different scores (`5/(√17·√2)` on the
first iteration, `17/(√257·√2)` on the second, where the query intensities
have been squared a second time), so a pair's score depends on which pairs
were processed before it. -/
theorem C1_pairwise_independence :
    (lcmsRefLoop (lcmsLoadConfig ⟨some "WM", none, none, none, none, some 2, none,
        none, none, none⟩) [((1:ℚ), (1:ℝ)), ((2:ℚ), (2:ℝ))]
      [[((1:ℚ), (1:ℝ)), ((2:ℚ), (1:ℝ))], [((1:ℚ), (1:ℝ)), ((2:ℚ), (1:ℝ))]]).2.get? 0 ≠
    (lcmsRefLoop (lcmsLoadConfig ⟨some "WM", none, none, none, none, some 2, none,
        none, none, none⟩) [((1:ℚ), (1:ℝ)), ((2:ℚ), (2:ℝ))]
      [[((1:ℚ), (1:ℝ)), ((2:ℚ), (1:ℝ))], [((1:ℚ), (1:ℝ)), ((2:ℚ), (1:ℝ))]]).2.get? 1 := by
  have hcfg : lcmsLoadConfig ⟨some "WM", none, none, none, none, some 2, none,
      none, none, none⟩ =
      ⟨['W', 'M'], 1/2, 0, 0, 2, 0, "standard", "cosine", none⟩ := rfl
  rw [hcfg, lcmsRefLoop, List.foldl_cons, List.foldl_cons, List.foldl_nil]
  rw [lcmsStepWMTwoPeaks 1 2 1 1 (Real.sqrt_ne_zero'.mpr (by norm_num))
    (Real.sqrt_ne_zero'.mpr (by norm_num))]
  norm_num [-Prod.mk_one_one]
  rw [lcmsStepWMTwoPeaks 1 4 1 1 (Real.sqrt_ne_zero'.mpr (by norm_num))
    (Real.sqrt_ne_zero'.mpr (by norm_num))]
  norm_num [-Prod.mk_one_one]
  exact lcmsScoreNe

end SpecLibMatching
